import Mathlib

/-!
Shallow embedding of the OpenCog-inspired knowledge-graph core
(`atomspace.py`, `cognitive_processes.py`, `cognitive_agent.py`) of the
`cogllama_cloud_services` repository, together with theorems settling the
frozen specification claims.

Modelling conventions:
* Python floats are modelled as exact rationals (`ℚ`); every arithmetic
  operation used by the code (`+`, `*`, `/`, `min`, comparisons) is exact.
* Atom ids (Python `uuid.uuid4()` strings) are modelled as naturals; a
  fresh id is one strictly larger than every id mentioned anywhere in the
  store or in the caller-supplied `outgoing` argument, which captures the
  global-uniqueness guarantee of uuid4.
* Python `datetime.now()` is modelled by an explicit `now : Nat` argument
  to every operation that reads the clock.
* A Python `dict` (insertion-ordered, unique keys) is modelled as a list;
  the `AtomSpace.atoms` dict becomes an insertion-ordered `List Atom`.
* Python truthiness of optional arguments is modelled explicitly: `None`
  is `Option.none`, and a falsy supplied value (empty string, `0.0`,
  empty list) is recognised where the code tests truthiness.
-/

namespace CogLlama

/-- Types of atoms in the knowledge graph, from `AtomType` in
`atomspace.py` (a `str` enum with exactly eight variants). -/
inductive AtomType where
  | concept
  | predicate
  | evaluation
  | implication
  | execution
  | goal
  | belief
  | action
deriving DecidableEq, Repr

/-- String value carried by each `AtomType` enum member (the Python enum
is a `str` subclass; `member.value` is this string). -/
def AtomType.value : AtomType → String
  | .concept => "concept"
  | .predicate => "predicate"
  | .evaluation => "evaluation"
  | .implication => "implication"
  | .execution => "execution"
  | .goal => "goal"
  | .belief => "belief"
  | .action => "action"

/-- Probabilistic truth value, from `TruthValue` in `atomspace.py`.
The pydantic range validation (both components in `[0,1]`) is stated as
the separate predicate `TruthValue.Valid` below. -/
structure TruthValue where
  strength : ℚ
  confidence : ℚ
deriving DecidableEq, Repr

/-- Range constraint enforced by pydantic at construction time
(`ge=0.0, le=1.0` on both fields). -/
def TruthValue.Valid (tv : TruthValue) : Prop :=
  0 ≤ tv.strength ∧ tv.strength ≤ 1 ∧ 0 ≤ tv.confidence ∧ tv.confidence ≤ 1

/-- Values storable in an atom's open metadata map (the code stores
strings, floats and atom ids there). -/
inductive MetaValue where
  | str (v : String)
  | num (v : ℚ)
  | ident (v : Nat)
deriving DecidableEq, Repr

/-- Open string-keyed metadata map (`Dict[str, Any]`), as an ordered
association list with unique keys. -/
def Meta := List (String × MetaValue)
deriving DecidableEq, Repr

/-- Lookup in a metadata map, modelling `dict.get(key)`. -/
def Meta.get (m : Meta) (key : String) : Option MetaValue :=
  match (List.find? (fun kv => kv.1 == key) m) with
  | some kv => some kv.2
  | none => none

/-- Basic unit of knowledge, from `Atom` in `atomspace.py`. -/
structure Atom where
  id : Nat
  type : AtomType
  name : String
  truth_value : TruthValue
  incoming : List Nat
  outgoing : List Nat
  metadata : Meta
  created_at : Nat
  updated_at : Nat
deriving DecidableEq, Repr

/-- Evidence merge, from `Atom.update_truth_value`: weighted average of
strengths by confidence weights, confidence capped at 1; if the total
weight is not positive the truth value is left unchanged.  The method
always stamps `updated_at = datetime.now()`, modelled by `now`. -/
def Atom.update_truth_value (a : Atom) (new_strength new_confidence : ℚ)
    (now : Nat) : Atom :=
  let weight_old := a.truth_value.confidence
  let weight_new := new_confidence
  let total_weight := weight_old + weight_new
  if 0 < total_weight then
    { a with
      truth_value :=
        { strength :=
            (a.truth_value.strength * weight_old + new_strength * weight_new)
              / total_weight
          confidence := min 1 total_weight }
      updated_at := now }
  else
    { a with updated_at := now }

/-- Knowledge graph, from `AtomSpace` in `atomspace.py`: a named,
insertion-ordered mapping from atom id to atom. -/
structure AtomSpace where
  atoms : List Atom
  name : String
deriving DecidableEq, Repr

/-- The empty store (`AtomSpace()` with the default name). -/
def AtomSpace.empty : AtomSpace := { atoms := [], name := "default" }

/-- Every id mentioned anywhere in the store: ids of stored atoms and
every entry of their `incoming` and `outgoing` lists. -/
def AtomSpace.mentionedIds (s : AtomSpace) : List Nat :=
  s.atoms.foldr (fun a acc => a.id :: (a.incoming ++ a.outgoing ++ acc)) []

/-- Fresh id for a new atom, modelling `uuid.uuid4()`: strictly larger
than every id mentioned in the store and in the caller-supplied
`outgoing` list, hence distinct from all of them. -/
def AtomSpace.freshId (s : AtomSpace) (out : List Nat) : Nat :=
  ((s.mentionedIds ++ out).foldr max 0) + 1

/-- Retrieve an atom by id, from `AtomSpace.get_atom` (`dict.get`). -/
def AtomSpace.get_atom (s : AtomSpace) (atom_id : Nat) : Option Atom :=
  List.find? (fun a => a.id == atom_id) s.atoms

/-- Replace the stored atom with the given id (in place, keeping store
order), modelling mutation of the dict entry's object. -/
def AtomSpace.setAtom (s : AtomSpace) (atom_id : Nat) (f : Atom → Atom) :
    AtomSpace :=
  { s with atoms := s.atoms.map (fun a => if a.id == atom_id then f a else a) }

/-- Appending of the new atom's id to the `incoming` list of one stored
atom, once per occurrence of that atom's id in the processed outgoing
list (the per-atom effect of `registerIncoming`, used to state
`registerIncoming_spec`). -/
def incomingAppend (out : List Nat) (nid : Nat) (a : Atom) : Atom :=
  { a with incoming := a.incoming ++ List.replicate (out.count a.id) nid }

/-- Second phase of `AtomSpace.add_atom` creation: for every id in the
new atom's `outgoing` list that exists in the store, append the new
atom's id to that target's `incoming` list. -/
def AtomSpace.registerIncoming (s : AtomSpace) (new_id : Nat)
    (out : List Nat) : AtomSpace :=
  out.foldl
    (fun sp oid =>
      if sp.atoms.any (fun a => a.id == oid) then
        sp.setAtom oid (fun a => { a with incoming := a.incoming ++ [new_id] })
      else sp)
    s

/-- The atom object constructed by the creation branch of
`AtomSpace.add_atom`: fresh id, default truth value `(0.5, 0.5)` when
none is given, empty `incoming`, caller-supplied `outgoing` and
`metadata` (defaulting to empty), both timestamps set to now. -/
def AtomSpace.newAtom (s : AtomSpace) (atom_type : AtomType) (name : String)
    (truth_value : Option TruthValue) (outgoing : Option (List Nat))
    (metadata : Option Meta) (now : Nat) : Atom :=
  { id := s.freshId (outgoing.getD [])
    type := atom_type
    name := name
    truth_value := truth_value.getD { strength := 0.5, confidence := 0.5 }
    incoming := []
    outgoing := outgoing.getD []
    metadata := metadata.getD []
    created_at := now
    updated_at := now }

/-- Add an atom, from `AtomSpace.add_atom`.  First scans for an existing
atom with the same `(type, name)`;  if found, merges the supplied truth
value into it (when one is supplied — `if truth_value:`) and returns it,
creating nothing.  Otherwise creates a new atom with a fresh id, default
truth value `(0.5, 0.5)` when none is given, registers it, and updates
the `incoming` lists of its existing `outgoing` targets. -/
def AtomSpace.add_atom (s : AtomSpace) (atom_type : AtomType) (name : String)
    (truth_value : Option TruthValue) (outgoing : Option (List Nat))
    (metadata : Option Meta) (now : Nat) : AtomSpace × Atom :=
  match List.find? (fun a => a.type == atom_type && a.name == name) s.atoms with
  | some existing =>
    match truth_value with
    | some tv =>
      let updated := existing.update_truth_value tv.strength tv.confidence now
      (s.setAtom existing.id (fun _ => updated), updated)
    | none => (s, existing)
  | none =>
    let atom := s.newAtom atom_type name truth_value outgoing metadata now
    let s1 : AtomSpace := { s with atoms := s.atoms ++ [atom] }
    (s1.registerIncoming atom.id atom.outgoing, atom)

/-- Find atoms matching the supplied criteria, from
`AtomSpace.find_atoms`.  Each filter is applied only when the supplied
Python value is truthy: `None` disables a filter, and so do an empty
string `name` and a zero `min_strength`. -/
def AtomSpace.find_atoms (s : AtomSpace) (atom_type : Option AtomType)
    (name : Option String) (min_strength : Option ℚ) : List Atom :=
  s.atoms.filter (fun a =>
    (match atom_type with
     | none => true
     | some t => decide (a.type = t)) &&
    (match name with
     | none => true
     | some n => n == "" || a.name == n) &&
    (match min_strength with
     | none => true
     | some m => decide (m = 0) || decide (m ≤ a.truth_value.strength)))

/-- Add a belief, from `AtomSpace.add_belief`. -/
def AtomSpace.add_belief (s : AtomSpace) (belief : String) (strength : ℚ)
    (confidence : ℚ) (now : Nat) : AtomSpace × Atom :=
  s.add_atom .belief belief
    (some { strength := strength, confidence := confidence }) none none now

/-- Add a goal, from `AtomSpace.add_goal`: truth value `(priority, 1.0)`
and metadata `{priority, status: "active"}`. -/
def AtomSpace.add_goal (s : AtomSpace) (goal : String) (priority : ℚ)
    (now : Nat) : AtomSpace × Atom :=
  s.add_atom .goal goal
    (some { strength := priority, confidence := 1 }) none
    (some [("priority", .num priority), ("status", .str "active")]) now

/-- Add an action, from `AtomSpace.add_action`: truth value
`(success_prob, 0.5)`. -/
def AtomSpace.add_action (s : AtomSpace) (action : String)
    (success_prob : ℚ) (now : Nat) : AtomSpace × Atom :=
  s.add_atom .action action
    (some { strength := success_prob, confidence := 0.5 }) none none now

/-- Append of a target id to an atom's `outgoing` list (the first
mutation performed by `link_atoms`). -/
def addOutgoing (target_id : Nat) (a : Atom) : Atom :=
  { a with outgoing := a.outgoing ++ [target_id] }

/-- Append of a source id to an atom's `incoming` list (the second
mutation performed by `link_atoms`). -/
def addIncoming (source_id : Nat) (a : Atom) : Atom :=
  { a with incoming := a.incoming ++ [source_id] }

/-- Link two atoms, from `AtomSpace.link_atoms`.  Returns the store
unchanged with `false` when either id is absent; otherwise, when the
target is not already in the source's `outgoing`, appends it there and
appends the source id to the target's `incoming`. -/
def AtomSpace.link_atoms (s : AtomSpace) (source_id target_id : Nat) :
    AtomSpace × Bool :=
  match s.get_atom source_id, s.get_atom target_id with
  | some source, some _ =>
    if target_id ∈ source.outgoing then (s, true)
    else
      let s1 := s.setAtom source_id (addOutgoing target_id)
      let s2 := s1.setAtom target_id (addIncoming source_id)
      (s2, true)
  | _, _ => (s, false)

/-- Per-atom effect of the edge-adding branch of `link_atoms`: an atom
whose id is the source gains the target in `outgoing`, and an atom
whose id is the target gains the source in `incoming` (an atom that is
both — a self-link — gains both). -/
def linkEdit (source_id target_id : Nat) (a : Atom) : Atom :=
  let a1 := if a.id == source_id then addOutgoing target_id a else a
  if a1.id == target_id then addIncoming source_id a1 else a1

/-- Tokenizer helper: splits a character list at whitespace runs,
accumulating the current word in reverse (the behaviour of Python
`str.split()` with no argument, which produces no empty tokens). -/
def splitWordsAux : List Char → List Char → List String
  | [], acc => if acc.isEmpty then [] else [String.mk acc.reverse]
  | c :: cs, acc =>
    if c.isWhitespace then
      if acc.isEmpty then splitWordsAux cs []
      else String.mk acc.reverse :: splitWordsAux cs []
    else splitWordsAux cs (c :: acc)

/-- Lower-cased whitespace-tokenized word list of a name, modelling
`name.lower().split()` (Python `str.split()` with no argument splits on
whitespace runs and drops empty tokens). -/
def pyWords (s : String) : List String :=
  splitWordsAux (s.data.map Char.toLower) []

/-- Lexical relevance test shared by `ReasoningProcess._is_relevant` and
`ActionProcess._is_relevant`: the lower-cased word sets of the two names
intersect non-trivially. -/
def isRelevant (goal_name other_name : String) : Bool :=
  (pyWords goal_name).any (fun w => (pyWords other_name).contains w)

/-- Test used by both reasoning and action stages for goal eligibility:
`metadata.get("status") == "active"` (Python code skips the goal when
`goal.metadata.get("status") != "active"`). -/
def isActiveGoal (g : Atom) : Bool :=
  g.metadata.get "status" == some (.str "active")

/-- An observation handed to the perception stage: either a structured
record (a dict with optional `concept`, `strength`, `confidence` keys)
or an opaque value whose string form is stored. -/
inductive Obs where
  | record (concept : Option String) (strength : Option ℚ) (confidence : Option ℚ)
  | txt (s : String)
deriving DecidableEq, Repr

/-- Result record of `PerceptionProcess.process`. -/
structure PerceptionResult where
  process : String
  perceived_concepts : List Nat
  count : Nat
deriving DecidableEq, Repr

/-- Perception stage, from `PerceptionProcess.process`: each observation
becomes a belief named `"perceived:" ++ concept`, with defaults
`strength = 0.7`, `confidence = 0.8`. -/
def perceptionProcess (process_name : String) (s : AtomSpace)
    (observations : List Obs) (now : Nat) : AtomSpace × PerceptionResult :=
  let step := fun (acc : AtomSpace × List Nat) (ob : Obs) =>
    let fields :=
      match ob with
      | .record c st cf => (c.getD "unknown", st.getD 0.7, cf.getD 0.8)
      | .txt t => (t, 0.7, 0.8)
    let r := acc.1.add_belief ("perceived:" ++ fields.1) fields.2.1 fields.2.2 now
    (r.1, acc.2 ++ [r.2.id])
  let out := observations.foldl step (s, [])
  (out.1,
   { process := process_name
     perceived_concepts := out.2
     count := out.2.length })

/-- Result record of `ReasoningProcess.process`. -/
structure ReasoningResult where
  process : String
  inferences : List Nat
  beliefs_considered : Nat
  goals_considered : Nat
deriving DecidableEq, Repr

/-- Reasoning stage, from `ReasoningProcess.process`: selects beliefs by
`find_atoms(BELIEF, min_strength=inference_threshold)` and all goals by
type; for every active goal and relevant belief, synthesizes/merges an
implication `"<belief> => <goal>"` with strength `min(belief.strength,
0.8)`, confidence `belief.confidence * 0.8`, outgoing
`[belief.id, goal.id]`. -/
def reasoningProcess (process_name : String) (inference_threshold : ℚ)
    (s : AtomSpace) (now : Nat) : AtomSpace × ReasoningResult :=
  let beliefs := s.find_atoms (some .belief) none (some inference_threshold)
  let goals := s.find_atoms (some .goal) none none
  let out := goals.foldl
    (fun (acc : AtomSpace × List Nat) g =>
      if isActiveGoal g then
        beliefs.foldl
          (fun (acc2 : AtomSpace × List Nat) b =>
            if isRelevant g.name b.name then
              let r := acc2.1.add_atom .implication (b.name ++ " => " ++ g.name)
                (some { strength := min b.truth_value.strength 0.8
                        confidence := b.truth_value.confidence * 0.8 })
                (some [b.id, g.id]) none now
              (r.1, acc2.2 ++ [r.2.id])
            else acc2)
          acc
      else acc)
    (s, [])
  (out.1,
   { process := process_name
     inferences := out.2
     beliefs_considered := beliefs.length
     goals_considered := goals.length })

/-- Utility score of an action toward a goal, from
`ActionProcess._calculate_action_score`. -/
def calcActionScore (action goal : Atom) : ℚ :=
  (action.truth_value.strength + goal.truth_value.strength) / 2

/-- Test whether an action can help a goal, from
`ActionProcess._action_helps_goal`: an implication atom whose `outgoing`
contains both ids, or lexical relevance of the two names. -/
def actionHelpsGoal (action goal : Atom) (s : AtomSpace) : Bool :=
  (s.find_atoms (some .implication) none none).any
      (fun imp => imp.outgoing.contains action.id && imp.outgoing.contains goal.id)
    || isRelevant goal.name action.name

/-- One step of the best-action scan in `ActionProcess.process`: a
candidate replaces the current best only when it helps the goal, its
score is strictly greater than the current best score, and the score is
at least the action threshold. -/
def selectStep (action_threshold : ℚ) (g : Atom) (sp : AtomSpace)
    (st : Option Atom × ℚ) (a : Atom) : Option Atom × ℚ :=
  if actionHelpsGoal a g sp then
    let score := calcActionScore a g
    if st.2 < score ∧ action_threshold ≤ score then (some a, score) else st
  else st

/-- Best-action scan over the action list for one goal, from the inner
loop of `ActionProcess.process` (initial state: no best action, best
score `0.0`). -/
def selectBest (action_threshold : ℚ) (g : Atom) (sp : AtomSpace)
    (actions : List Atom) : Option Atom × ℚ :=
  actions.foldl (selectStep action_threshold g sp) (none, 0)

/-- Stable descending insertion by truth-value strength (helper for
`sortByStrengthDesc`). -/
def insertDesc (x : Atom) : List Atom → List Atom
  | [] => [x]
  | y :: ys =>
    if y.truth_value.strength ≤ x.truth_value.strength then x :: y :: ys
    else y :: insertDesc x ys

/-- Stable descending sort by truth-value strength, modelling Python's
stable `list.sort(key=strength, reverse=True)`. -/
def sortByStrengthDesc : List Atom → List Atom
  | [] => []
  | x :: xs => insertDesc x (sortByStrengthDesc xs)

/-- One entry of the `selected_actions` output of the action stage. -/
structure SelectedAction where
  execution_id : Nat
  action : String
  goal : String
  score : ℚ
deriving DecidableEq, Repr

/-- Result record of `ActionProcess.process`. -/
structure ActionResult where
  process : String
  selected_actions : List SelectedAction
  goals_addressed : Nat
deriving DecidableEq, Repr

/-- Action stage, from `ActionProcess.process`: takes the top 3 active
goals by descending strength, scans all action atoms for the best
scoring helper of each, and synthesizes an execution atom per selected
action. -/
def actionProcess (process_name : String) (action_threshold : ℚ)
    (s : AtomSpace) (now : Nat) : AtomSpace × ActionResult :=
  let goals := s.find_atoms (some .goal) none none
  let active_goals := goals.filter isActiveGoal
  let top_goals := (sortByStrengthDesc active_goals).take 3
  let actions := s.find_atoms (some .action) none none
  let out := top_goals.foldl
    (fun (acc : AtomSpace × List SelectedAction) g =>
      let best := selectBest action_threshold g acc.1 actions
      match best.1 with
      | some b =>
        let r := acc.1.add_atom .execution ("execute:" ++ b.name)
          (some { strength := best.2, confidence := 0.8 })
          (some [b.id, g.id])
          (some [("goal_id", .ident g.id), ("action_id", .ident b.id),
                 ("expected_utility", .num best.2)]) now
        (r.1, acc.2 ++ [{ execution_id := r.2.id, action := b.name,
                          goal := g.name, score := best.2 }])
      | none => acc)
    (s, [])
  (out.1,
   { process := process_name
     selected_actions := out.2
     goals_addressed := out.2.length })

/-- A registered cognitive stage instance, by runtime kind (modelling
`isinstance` dispatch over `PerceptionProcess` / `ReasoningProcess` /
`ActionProcess`), carrying the instance's name and parameters. -/
inductive ProcessInst where
  | perception (name : String)
  | reasoning (name : String) (inference_threshold : ℚ)
  | action (name : String) (action_threshold : ℚ)
deriving DecidableEq, Repr

/-- Default stage list installed by `CognitiveAgent.__init__` when the
`processes` field is falsy: one default instance of each stage with its
default parameters. -/
def defaultProcesses : List ProcessInst :=
  [.perception "perception", .reasoning "reasoning" 0.6, .action "action" 0.5]

/-- Autonomous agent, from `CognitiveAgent` in `cognitive_agent.py`. -/
structure CognitiveAgent where
  name : String
  atomspace : AtomSpace
  processes : List ProcessInst
deriving DecidableEq, Repr

/-- Construction of a `CognitiveAgent`, from `CognitiveAgent.__init__`:
an unsupplied `atomspace` defaults to an empty store named
`"agent_memory"`; an unsupplied `processes` list defaults to `[]`, and
then `if not self.processes:` installs the three defaults — so a
supplied empty list also receives the defaults. -/
def mkCognitiveAgent (name : String) (atomspace : Option AtomSpace)
    (processes : Option (List ProcessInst)) : CognitiveAgent :=
  let sp := atomspace.getD { atoms := [], name := "agent_memory" }
  let ps := processes.getD []
  { name := name
    atomspace := sp
    processes := if ps.isEmpty then defaultProcesses else ps }

/-- First registered perception stage, from the `isinstance` scan in
`CognitiveAgent.perceive`. -/
def findPerception : List ProcessInst → Option String
  | [] => none
  | .perception nm :: _ => some nm
  | _ :: ps => findPerception ps

/-- First registered reasoning stage, from the `isinstance` scan in
`CognitiveAgent.reason`. -/
def findReasoning : List ProcessInst → Option (String × ℚ)
  | [] => none
  | .reasoning nm th :: _ => some (nm, th)
  | _ :: ps => findReasoning ps

/-- First registered action stage, from the `isinstance` scan in
`CognitiveAgent.plan_actions`. -/
def findAction : List ProcessInst → Option (String × ℚ)
  | [] => none
  | .action nm th :: _ => some (nm, th)
  | _ :: ps => findAction ps

/-- A stage's contribution to `cycle_results`: either the stage's result
record or the `{"error": ...}` value returned when no stage of the
requested kind is registered. -/
inductive StageResult where
  | perceptionOk (r : PerceptionResult)
  | reasoningOk (r : ReasoningResult)
  | actionOk (r : ActionResult)
  | stageError (msg : String)
deriving DecidableEq, Repr

/-- Perception dispatch, from `CognitiveAgent.perceive`. -/
def CognitiveAgent.perceive (ag : CognitiveAgent) (observations : List Obs)
    (now : Nat) : AtomSpace × StageResult :=
  match findPerception ag.processes with
  | some nm =>
    let r := perceptionProcess nm ag.atomspace observations now
    (r.1, .perceptionOk r.2)
  | none => (ag.atomspace, .stageError "No perception process available")

/-- Reasoning dispatch, from `CognitiveAgent.reason`. -/
def CognitiveAgent.reason (ag : CognitiveAgent) (now : Nat) :
    AtomSpace × StageResult :=
  match findReasoning ag.processes with
  | some (nm, th) =>
    let r := reasoningProcess nm th ag.atomspace now
    (r.1, .reasoningOk r.2)
  | none => (ag.atomspace, .stageError "No reasoning process available")

/-- Action dispatch, from `CognitiveAgent.plan_actions`. -/
def CognitiveAgent.plan_actions (ag : CognitiveAgent) (now : Nat) :
    AtomSpace × StageResult :=
  match findAction ag.processes with
  | some (nm, th) =>
    let r := actionProcess nm th ag.atomspace now
    (r.1, .actionOk r.2)
  | none => (ag.atomspace, .stageError "No action process available")

/-- Output of `CognitiveAgent.cognitive_cycle`: the agent name and the
`cycle_results` mapping, as an ordered key/value list (key present in
the list exactly when the Python dict holds the key). -/
structure CycleOutput where
  agent : String
  cycle_results : List (String × StageResult)
deriving DecidableEq, Repr

/-- One cognitive cycle, from `CognitiveAgent.cognitive_cycle`: runs
perception only when the `observations` argument is truthy (`if
observations:` — absent and empty both skip it, and then the
`"perception"` key is entirely omitted), then reasoning, then action
planning, threading the mutated store through. -/
def CognitiveAgent.cognitive_cycle (ag : CognitiveAgent)
    (observations : Option (List Obs)) (now : Nat) :
    CognitiveAgent × CycleOutput :=
  let step1 :=
    match observations with
    | some l =>
      if l.isEmpty then (ag, ([] : List (String × StageResult)))
      else
        let r := ag.perceive l now
        ({ ag with atomspace := r.1 }, [("perception", r.2)])
    | none => (ag, [])
  let ag1 := step1.1
  let r2 := ag1.reason now
  let ag2 := { ag1 with atomspace := r2.1 }
  let r3 := ag2.plan_actions now
  let ag3 := { ag2 with atomspace := r3.1 }
  (ag3,
   { agent := ag.name
     cycle_results := step1.2 ++ [("reasoning", r2.2), ("action_planning", r3.2)] })

/-- Summary record returned by `CognitiveAgent.get_knowledge_summary`. -/
structure KnowledgeSummary where
  agent : String
  total_atoms : Nat
  beliefs : Nat
  goals : Nat
  actions : Nat
  implications : Nat
deriving DecidableEq, Repr

/-- Knowledge summary, from `CognitiveAgent.get_knowledge_summary`:
`beliefs` counts `find_atoms(type=BELIEF)` when the store is non-empty
(else an empty list); `goals`, `actions` and `implications` count atoms
whose enum `type.value` equals the respective tag string. -/
def CognitiveAgent.get_knowledge_summary (ag : CognitiveAgent) :
    KnowledgeSummary :=
  { agent := ag.name
    total_atoms := ag.atomspace.atoms.length
    beliefs :=
      (if ag.atomspace.atoms.isEmpty then []
       else ag.atomspace.find_atoms (some .belief) none none).length
    goals := (ag.atomspace.atoms.filter (fun a => a.type.value == "goal")).length
    actions := (ag.atomspace.atoms.filter (fun a => a.type.value == "action")).length
    implications :=
      (ag.atomspace.atoms.filter (fun a => a.type.value == "implication")).length }

/-- Edge-symmetry invariant of the store, from the specification: for
all atoms A, B present in the store, `B.id ∈ A.outgoing` exactly when
`A.id ∈ B.incoming`. -/
def EdgeSym (s : AtomSpace) : Prop :=
  ∀ a ∈ s.atoms, ∀ b ∈ s.atoms, (b.id ∈ a.outgoing ↔ a.id ∈ b.incoming)

/-- Projection of an atom onto every field except `incoming` (used to
state which fields `registerIncoming` leaves untouched). -/
def Atom.eraseIncoming (a : Atom) : Atom := { a with incoming := [] }

/-- Sample atom used to instantiate hypothesis-bearing theorems at
concrete inputs. -/
def sampleAtom (tv : TruthValue) : Atom :=
  { id := 1, type := .belief, name := "x", truth_value := tv,
    incoming := [], outgoing := [], metadata := [],
    created_at := 0, updated_at := 0 }

/-- Sample store holding one belief named `"x"`. -/
def sampleStore : AtomSpace := (AtomSpace.empty.add_belief "x" 0.9 0.5 0).1

/-- The single belief atom of `sampleStore`. -/
def sampleBelief : Atom := (AtomSpace.empty.add_belief "x" 0.9 0.5 0).2

/-- Reasoning-threshold scenario store: one belief at strength 0.5. -/
def scn7space : AtomSpace :=
  (AtomSpace.empty.add_belief "cloud dark" 0.5 0.5 0).1

/-- The single belief atom of `scn7space`. -/
def scn7belief : Atom :=
  (AtomSpace.empty.add_belief "cloud dark" 0.5 0.5 0).2

/-- Action-threshold scenario store: one active goal at priority 0.5 and
one lexically relevant action at success probability 0.3. -/
def scn8space : AtomSpace :=
  ((AtomSpace.empty.add_goal "reach target" 0.5 0).1.add_action
    "hit target" 0.3 0).1

/-- The goal atom of the action-threshold scenario. -/
def scn8goal : Atom := (AtomSpace.empty.add_goal "reach target" 0.5 0).2

/-- The action atom of the action-threshold scenario. -/
def scn8action : Atom :=
  ((AtomSpace.empty.add_goal "reach target" 0.5 0).1.add_action
    "hit target" 0.3 0).2

/-- Two-concept store used to instantiate the edge-symmetry and
timestamp theorems: atoms with ids 1 and 2, created at times 3 and 4. -/
def twoConceptSpace : AtomSpace :=
  ((AtomSpace.empty.add_atom .concept "a" none none none 3).1.add_atom
    .concept "b" none none none 4).1

/-- The first atom of `twoConceptSpace` after `link_atoms 1 2`: it has
gained the outgoing edge but kept its original `updated_at` of 3. -/
def linkedSource : Atom :=
  { id := 1, type := .concept, name := "a", truth_value := ⟨0.5, 0.5⟩,
    incoming := [], outgoing := [2], metadata := [], created_at := 3,
    updated_at := 3 }

/-- The first atom of `twoConceptSpace` before linking. -/
def conceptA : Atom :=
  { id := 1, type := .concept, name := "a", truth_value := ⟨0.5, 0.5⟩,
    incoming := [], outgoing := [], metadata := [], created_at := 3,
    updated_at := 3 }

/-- The second atom of `twoConceptSpace` before linking. -/
def conceptB : Atom :=
  { id := 2, type := .concept, name := "b", truth_value := ⟨0.5, 0.5⟩,
    incoming := [], outgoing := [], metadata := [], created_at := 4,
    updated_at := 4 }

/-- The second atom of `twoConceptSpace` after `link_atoms 1 2`. -/
def linkedTarget : Atom :=
  { id := 2, type := .concept, name := "b", truth_value := ⟨0.5, 0.5⟩,
    incoming := [1], outgoing := [], metadata := [], created_at := 4,
    updated_at := 4 }

/-! ## Theorems -/

/-- C3: truth-value merge.  For every atom and evidence pair, with
`w_old = existing.confidence`, `w_new = new_confidence` and
`w_total = w_old + w_new`: if `w_total > 0` the merge sets strength to
`(existing.strength * w_old + new_strength * w_new) / w_total` and
confidence to `min 1 w_total`; if `w_total = 0` both strength and
confidence are left unchanged (no division-by-zero error). -/
theorem c3_truth_value_merge (a : Atom) (ns nc : ℚ) (now : Nat) :
    (0 < a.truth_value.confidence + nc →
      (a.update_truth_value ns nc now).truth_value.strength =
        (a.truth_value.strength * a.truth_value.confidence + ns * nc) /
          (a.truth_value.confidence + nc) ∧
      (a.update_truth_value ns nc now).truth_value.confidence =
        min 1 (a.truth_value.confidence + nc)) ∧
    (a.truth_value.confidence + nc = 0 →
      (a.update_truth_value ns nc now).truth_value = a.truth_value) := by
  unfold Atom.update_truth_value
  constructor
  · intro h
    rw [if_pos h]
    exact ⟨rfl, rfl⟩
  · intro h
    rw [if_neg (by rw [h]; exact lt_irrefl 0)]

/-- Witness for `c3_truth_value_merge`: the merge of `(0.5, 0.5)` with
evidence `(0.9, 0.8)` (total weight `1.3 > 0`), and the zero-weight
no-op merge of `(0.5, 0)` with evidence `(0.9, 0)`. -/
theorem c3_truth_value_merge_witness :
    ((0 : ℚ) < (sampleAtom ⟨0.5, 0.5⟩).truth_value.confidence + 0.8 ∧
     ((sampleAtom ⟨0.5, 0.5⟩).update_truth_value 0.9 0.8 5).truth_value.confidence =
       min 1 ((sampleAtom ⟨0.5, 0.5⟩).truth_value.confidence + 0.8)) ∧
    ((sampleAtom ⟨0.5, 0⟩).truth_value.confidence + 0 = 0 ∧
     ((sampleAtom ⟨0.5, 0⟩).update_truth_value 0.9 0 5).truth_value =
       (sampleAtom ⟨0.5, 0⟩).truth_value) :=
  ⟨⟨by norm_num [sampleAtom],
    ((c3_truth_value_merge (sampleAtom ⟨0.5, 0.5⟩) 0.9 0.8 5).1
      (by norm_num [sampleAtom])).2⟩,
   ⟨by norm_num [sampleAtom],
    (c3_truth_value_merge (sampleAtom ⟨0.5, 0⟩) 0.9 0 5).2
      (by norm_num [sampleAtom])⟩⟩

/-- C10: falsy-filter edge case of `find_atoms`.  Calling `find_atoms`
with `name` equal to the empty string, or with `min_strength` equal to
`0.0`, applies no filter for that argument (each filter is skipped when
the supplied value is falsy), and consequently an atom whose name is
the empty string can never be selected by the name filter: any atom
returned under a truthy name filter bears exactly that name. -/
theorem c10_falsy_filters (s : AtomSpace) (t : Option AtomType)
    (n : Option String) (m : Option ℚ) :
    s.find_atoms t (some "") m = s.find_atoms t none m ∧
    s.find_atoms t n (some 0) = s.find_atoms t n none ∧
    (∀ nm : String, nm ≠ "" →
      ∀ a ∈ s.find_atoms t (some nm) m, a.name = nm) := by
  refine ⟨?_, ?_, ?_⟩
  · unfold AtomSpace.find_atoms
    simp
  · unfold AtomSpace.find_atoms
    simp
  · intro nm hnm a ha
    unfold AtomSpace.find_atoms at ha
    rw [List.mem_filter] at ha
    obtain ⟨-, hp⟩ := ha
    simp only [Bool.and_eq_true, Bool.or_eq_true, beq_iff_eq] at hp
    rcases hp with ⟨⟨-, hempty | heq⟩, -⟩
    · exact absurd hempty hnm
    · exact heq

/-- Witness for `c10_falsy_filters`: on the one-belief sample store the
empty-string name filter returns every atom, the zero strength filter
returns every atom, and the atom found under the name filter `"x"` is
named `"x"`. -/
theorem c10_falsy_filters_witness :
    sampleStore.find_atoms none (some "") none =
      sampleStore.find_atoms none none none ∧
    (sampleStore.add_belief "" 0.9 0.5 0).1.find_atoms none none (some 0) =
      (sampleStore.add_belief "" 0.9 0.5 0).1.find_atoms none none none ∧
    sampleBelief.name = "x" :=
  ⟨(c10_falsy_filters sampleStore none none none).1,
   ((c10_falsy_filters (sampleStore.add_belief "" 0.9 0.5 0).1 none none none).2).1,
   (c10_falsy_filters sampleStore none none none).2.2 "x" (by decide)
     sampleBelief (by exact List.Mem.head _)⟩

/-- Helper: `find_atoms` with only a type filter is the plain filter of
the store by that atom type. -/
theorem find_atoms_by_type (s : AtomSpace) (t : AtomType) :
    s.find_atoms (some t) none none =
      s.atoms.filter (fun a => decide (a.type = t)) := by
  unfold AtomSpace.find_atoms
  exact List.filter_congr (fun a _ => by simp)

/-- C9: knowledge-summary consistency.  For every agent store state, the
knowledge summary's `goals`, `beliefs`, `actions` and `implications`
counts equal the lengths of `find_atoms` restricted to the respective
types (including the empty-store case for `beliefs`). -/
theorem c9_knowledge_summary (ag : CognitiveAgent) :
    ag.get_knowledge_summary.goals =
      (ag.atomspace.find_atoms (some .goal) none none).length ∧
    ag.get_knowledge_summary.beliefs =
      (ag.atomspace.find_atoms (some .belief) none none).length ∧
    ag.get_knowledge_summary.actions =
      (ag.atomspace.find_atoms (some .action) none none).length ∧
    ag.get_knowledge_summary.implications =
      (ag.atomspace.find_atoms (some .implication) none none).length := by
  have htag : ∀ (t : AtomType) (tag : String),
      (∀ a : Atom, (a.type.value == tag) = decide (a.type = t)) →
      (ag.atomspace.atoms.filter (fun a => a.type.value == tag)).length =
        (ag.atomspace.find_atoms (some t) none none).length := by
    intro t tag h
    rw [find_atoms_by_type, List.filter_congr (fun a _ => h a)]
  refine ⟨?_, ?_, ?_, ?_⟩
  · exact htag .goal "goal" (fun a => by cases a.type <;> rfl)
  · show (if ag.atomspace.atoms.isEmpty then []
      else ag.atomspace.find_atoms (some .belief) none none).length = _
    rcases h : ag.atomspace.atoms with - | ⟨x, xs⟩
    · simp [find_atoms_by_type, h]
    · simp
  · exact htag .action "action" (fun a => by cases a.type <;> rfl)
  · exact htag .implication "implication" (fun a => by cases a.type <;> rfl)

/-- C5 counterexample: the claim states that a caller-supplied explicit
stage list is installed verbatim even when empty, but constructing an
agent with the explicit empty stage list installs the three default
stages (Python's `if not self.processes:` is true for an empty list). -/
theorem c5_counterexample :
    (mkCognitiveAgent "a" none (some [])).processes = defaultProcesses ∧
    (mkCognitiveAgent "a" none (some [])).processes.length = 3 := by
  exact ⟨rfl, rfl⟩

/-- C5 (amended): an orchestrator constructed without an explicit stage
list, or with an explicit *empty* one, holds exactly one default
instance each of Perception, Reasoning, and Action; when the caller
supplies a non-empty explicit stage list, no defaults are injected and
the process list is exactly the one supplied. -/
theorem c5_default_stages (name : String) (sp : Option AtomSpace)
    (ps : Option (List ProcessInst)) :
    ((ps = none ∨ ps = some []) →
      (mkCognitiveAgent name sp ps).processes = defaultProcesses) ∧
    (∀ l, ps = some l → l ≠ [] →
      (mkCognitiveAgent name sp ps).processes = l) ∧
    defaultProcesses =
      [.perception "perception", .reasoning "reasoning" 0.6,
       .action "action" 0.5] := by
  refine ⟨?_, ?_, rfl⟩
  · rintro (rfl | rfl) <;> rfl
  · rintro l rfl hl
    unfold mkCognitiveAgent
    simp only [Option.getD_some]
    rw [if_neg (by simpa using hl)]

/-- Witness for `c5_default_stages`: the no-list constructor call yields
the defaults, and a supplied singleton list is installed verbatim. -/
theorem c5_default_stages_witness :
    (mkCognitiveAgent "a" none none).processes = defaultProcesses ∧
    (mkCognitiveAgent "a" none
      (some [.perception "custom_perception"])).processes =
      [.perception "custom_perception"] :=
  ⟨(c5_default_stages "a" none none).1 (Or.inl rfl),
   (c5_default_stages "a" none (some [.perception "custom_perception"])).2.1
     [.perception "custom_perception"] rfl (by decide)⟩

/-- C4 counterexample: the claim states the `"perception"` key is
present exactly when the observations argument is non-absent, but a
supplied *empty* observation list (non-absent) is falsy in Python, so
the key is omitted: the cycle run with `some []` yields only the
reasoning and action keys. -/
theorem c4_counterexample :
    ((mkCognitiveAgent "a" none none).cognitive_cycle
        (some []) 0).2.cycle_results.map Prod.fst =
      ["reasoning", "action_planning"] := rfl

/-- C4 (amended): the `"perception"` key is present in `cycle_results`
exactly when the observations argument is non-absent *and* non-empty,
while the `"reasoning"` and `"action_planning"` keys are always
present. -/
theorem c4_cycle_shape (ag : CognitiveAgent)
    (observations : Option (List Obs)) (now : Nat) :
    ((∃ r, ("perception", r) ∈
        (ag.cognitive_cycle observations now).2.cycle_results) ↔
      ∃ l, observations = some l ∧ l ≠ []) ∧
    (∃ r, ("reasoning", r) ∈
      (ag.cognitive_cycle observations now).2.cycle_results) ∧
    (∃ r, ("action_planning", r) ∈
      (ag.cognitive_cycle observations now).2.cycle_results) := by
  unfold CognitiveAgent.cognitive_cycle
  rcases observations with - | l
  · simp
  · rcases l with - | ⟨o, os⟩
    · simp
    · simp

/-- Witness for `c4_cycle_shape`: a cycle run with one observation has
the perception key, and cycles always carry the reasoning and
action-planning keys (also when stages are missing or no observations
are given). -/
theorem c4_cycle_shape_witness :
    (∃ r, ("perception", r) ∈
      ((mkCognitiveAgent "w" none (some [.perception "p"])).cognitive_cycle
        (some [.txt "o"]) 0).2.cycle_results) ∧
    (∃ r, ("reasoning", r) ∈
      ((mkCognitiveAgent "w" none (some [.perception "p"])).cognitive_cycle
        (some [.txt "o"]) 0).2.cycle_results) ∧
    (∃ r, ("action_planning", r) ∈
      ((mkCognitiveAgent "w2" none none).cognitive_cycle
        none 0).2.cycle_results) :=
  ⟨((c4_cycle_shape (mkCognitiveAgent "w" none (some [.perception "p"]))
      (some [.txt "o"]) 0).1).mpr ⟨[.txt "o"], rfl, List.cons_ne_nil _ _⟩,
   (c4_cycle_shape (mkCognitiveAgent "w" none (some [.perception "p"]))
      (some [.txt "o"]) 0).2.1,
   (c4_cycle_shape (mkCognitiveAgent "w2" none none) none 0).2.2⟩

/-- Helper: `registerIncoming` appends the new id to each stored atom's
`incoming` list once per occurrence of that atom's id in the processed
outgoing list, and changes nothing else. -/
theorem registerIncoming_spec (out : List Nat) (s : AtomSpace) (nid : Nat) :
    s.registerIncoming nid out =
      { atoms := s.atoms.map (incomingAppend out nid)
        name := s.name } := by
  induction out generalizing s with
  | nil =>
    show s = _
    rcases s with ⟨atoms, name⟩
    rw [AtomSpace.mk.injEq]
    refine ⟨?_, rfl⟩
    rw [List.map_congr_left (g := fun a => a)
      (fun a _ => by
        simp only [incomingAppend, List.count_nil, List.replicate_zero,
          List.append_nil])]
    exact (List.map_id _).symm
  | cons o rest ih =>
    have hstep : s.registerIncoming nid (o :: rest) =
        AtomSpace.registerIncoming
          (if (s.atoms.any fun a => a.id == o) = true then
            s.setAtom o (fun a => { a with incoming := a.incoming ++ [nid] })
          else s) nid rest := rfl
    rw [hstep]
    by_cases h : (s.atoms.any fun a => a.id == o) = true
    · rw [if_pos h, ih]
      unfold AtomSpace.setAtom
      rw [AtomSpace.mk.injEq]
      refine ⟨?_, rfl⟩
      show (s.atoms.map _).map _ = _
      rw [List.map_map]
      apply List.map_congr_left
      intro a _
      simp only [Function.comp, incomingAppend]
      by_cases h1 : a.id = o
      · rw [if_pos (beq_iff_eq.mpr h1)]
        rw [List.count_cons, if_pos (beq_iff_eq.mpr h1.symm),
          List.replicate_succ, List.append_assoc]
        exact rfl
      · rw [if_neg (fun e => h1 (beq_iff_eq.mp e))]
        rw [List.count_cons, if_neg (fun e => h1 (beq_iff_eq.mp e).symm)]
        exact rfl
    · rw [if_neg h, ih]
      rw [AtomSpace.mk.injEq]
      refine ⟨?_, rfl⟩
      apply List.map_congr_left
      intro a ha
      have h2 : ¬(a.id = o) := fun e =>
        h (List.any_eq_true.mpr ⟨a, ha, beq_iff_eq.mpr e⟩)
      simp only [incomingAppend]
      rw [List.count_cons, if_neg (fun e => h2 (beq_iff_eq.mp e).symm)]
      exact rfl

/-- Helper: `update_truth_value` changes only the truth value and the
`updated_at` timestamp (which it sets to now). -/
theorem update_truth_value_proj (a : Atom) (ns nc : ℚ) (now : Nat) :
    (a.update_truth_value ns nc now).id = a.id ∧
    (a.update_truth_value ns nc now).type = a.type ∧
    (a.update_truth_value ns nc now).name = a.name ∧
    (a.update_truth_value ns nc now).incoming = a.incoming ∧
    (a.update_truth_value ns nc now).outgoing = a.outgoing ∧
    (a.update_truth_value ns nc now).metadata = a.metadata ∧
    (a.update_truth_value ns nc now).updated_at = now := by
  simp only [Atom.update_truth_value]
  by_cases h : 0 < a.truth_value.confidence + nc
  · rw [if_pos h]
    exact ⟨rfl, rfl, rfl, rfl, rfl, rfl, rfl⟩
  · rw [if_neg h]
    exact ⟨rfl, rfl, rfl, rfl, rfl, rfl, rfl⟩

/-- Helper: full description of the creation branch of `add_atom`, for
a store holding no atom with the given `(type, name)`. -/
theorem add_atom_create (s : AtomSpace) (t : AtomType) (n : String)
    (tv : Option TruthValue) (o : Option (List Nat)) (m : Option Meta)
    (now : Nat)
    (h : s.atoms.find? (fun a => a.type == t && a.name == n) = none) :
    s.add_atom t n tv o m now =
      ({ atoms := (s.atoms ++ [s.newAtom t n tv o m now]).map
           (incomingAppend (o.getD []) (s.newAtom t n tv o m now).id)
         name := s.name }, s.newAtom t n tv o m now) := by
  unfold AtomSpace.add_atom
  rw [h]
  show (AtomSpace.registerIncoming _ _ _, _) = _
  rw [registerIncoming_spec]
  rfl

/-- Helper: the dedup branch of `add_atom` — when the `(type, name)`
scan finds an existing atom, the returned atom keeps its id and the
atom count does not change. -/
theorem add_atom_dedup (s1 : AtomSpace) (y : Atom) (t : AtomType)
    (n : String) (tv : Option TruthValue) (o : Option (List Nat))
    (m : Option Meta) (now : Nat)
    (hf : s1.atoms.find? (fun a => a.type == t && a.name == n) = some y) :
    (s1.add_atom t n tv o m now).2.id = y.id ∧
    (s1.add_atom t n tv o m now).1.atoms.length = s1.atoms.length := by
  unfold AtomSpace.add_atom
  rw [hf]
  rcases tv with - | tv
  · exact ⟨rfl, rfl⟩
  · constructor
    · exact (update_truth_value_proj y tv.strength tv.confidence now).1
    · show (s1.setAtom _ _).atoms.length = _
      unfold AtomSpace.setAtom
      exact List.length_map _ _

/-- C1 counterexample: the claim quantifies over *every* store, but on
a store already containing the `(type, name)` pair, calling `add_atom`
twice more returns the existing id both times and increases the atom
count by zero, not one. -/
theorem c1_counterexample :
    ((AtomSpace.empty.add_atom .concept "x" none none none 0).1.add_atom
        .concept "x" none none none 1).2.id =
      (((AtomSpace.empty.add_atom .concept "x" none none none 0).1.add_atom
        .concept "x" none none none 1).1.add_atom
        .concept "x" none none none 2).2.id ∧
    (AtomSpace.empty.add_atom .concept "x" none none none 0).1.atoms.length = 1 ∧
    (((AtomSpace.empty.add_atom .concept "x" none none none 0).1.add_atom
        .concept "x" none none none 1).1.add_atom
        .concept "x" none none none 2).1.atoms.length = 1 := by
  exact ⟨rfl, rfl, rfl⟩

/-- C1 (amended): on a store with no atom of the given `(type, name)`
pair, calling `add_atom` twice with that type and name returns an atom
with the same id both times, and the atom count increases by exactly 1
across the two calls (the first call adds one atom, the second adds
none): the second call locates the existing atom (updating it only when
a truth value is supplied) rather than creating a new id. -/
theorem c1_dedup (s : AtomSpace) (t : AtomType) (n : String)
    (tv1 tv2 : Option TruthValue) (o1 o2 : Option (List Nat))
    (m1 m2 : Option Meta) (now1 now2 : Nat)
    (h : s.atoms.find? (fun a => a.type == t && a.name == n) = none) :
    (s.add_atom t n tv1 o1 m1 now1).2.id =
      ((s.add_atom t n tv1 o1 m1 now1).1.add_atom t n tv2 o2 m2 now2).2.id ∧
    (s.add_atom t n tv1 o1 m1 now1).1.atoms.length = s.atoms.length + 1 ∧
    ((s.add_atom t n tv1 o1 m1 now1).1.add_atom t n tv2 o2 m2 now2).1.atoms.length =
      (s.add_atom t n tv1 o1 m1 now1).1.atoms.length := by
  have hA := add_atom_create s t n tv1 o1 m1 now1 h
  have hfind : (s.add_atom t n tv1 o1 m1 now1).1.atoms.find?
      (fun a => a.type == t && a.name == n) =
      some (incomingAppend (o1.getD []) (s.newAtom t n tv1 o1 m1 now1).id
        (s.newAtom t n tv1 o1 m1 now1)) := by
    rw [hA]
    show ((s.atoms ++ [s.newAtom t n tv1 o1 m1 now1]).map _).find? _ = _
    rw [List.find?_map]
    have hcomp : ((fun a : Atom => a.type == t && a.name == n) ∘
        (incomingAppend (o1.getD []) (s.newAtom t n tv1 o1 m1 now1).id)) =
        (fun a : Atom => a.type == t && a.name == n) := rfl
    rw [hcomp, List.find?_append, h]
    rw [List.find?_cons_of_pos _ (by
      show ((s.newAtom t n tv1 o1 m1 now1).type == t &&
        (s.newAtom t n tv1 o1 m1 now1).name == n) = true
      show (t == t && (n == n)) = true
      simp)]
    rfl
  have hsecond := add_atom_dedup (s.add_atom t n tv1 o1 m1 now1).1 _ t n tv2 o2
    m2 now2 hfind
  refine ⟨?_, ?_, hsecond.2⟩
  · rw [hsecond.1, hA]
    exact rfl
  · rw [hA]
    show ((s.atoms ++ [_]).map _).length = _
    rw [List.length_map, List.length_append]
    rfl

/-- Witness for `c1_dedup`: two `add_atom` calls for `(concept, "x")` on
the empty store return the same id, with the count going from 0 to 1. -/
theorem c1_dedup_witness :
    (AtomSpace.empty.add_atom .concept "x" none none none 0).2.id =
      ((AtomSpace.empty.add_atom .concept "x" none none none 0).1.add_atom
        .concept "x" none none none 1).2.id ∧
    (AtomSpace.empty.add_atom .concept "x" none none none 0).1.atoms.length =
      AtomSpace.empty.atoms.length + 1 :=
  ⟨(c1_dedup AtomSpace.empty .concept "x" none none none none none none 0 1 rfl).1,
   (c1_dedup AtomSpace.empty .concept "x" none none none none none none 0 1 rfl).2.1⟩

/-- Helper: a `setAtom` whose update function preserves id and
`updated_at` relates every atom of the result to an atom of the
original store with the same id and timestamp. -/
theorem setAtom_preserves (s : AtomSpace) (i : Nat) (f : Atom → Atom)
    (a2 : Atom) (ha2 : a2 ∈ (s.setAtom i f).atoms)
    (hid : ∀ a, (f a).id = a.id)
    (hup : ∀ a, (f a).updated_at = a.updated_at) :
    ∃ a1 ∈ s.atoms, a1.id = a2.id ∧ a2.updated_at = a1.updated_at := by
  unfold AtomSpace.setAtom at ha2
  rcases List.mem_map.mp ha2 with ⟨a1, ha1, heq⟩
  by_cases e : (a1.id == i) = true
  · rw [if_pos e] at heq
    exact ⟨a1, ha1, by rw [← heq, hid], by rw [← heq, hup]⟩
  · rw [if_neg e] at heq
    exact ⟨a1, ha1, by rw [heq], by rw [heq]⟩

/-- C6 counterexample: the claim states `updated_at` advances on every
mutating operation including edge addition via `link_atoms`, but on the
two-concept store `link_atoms` adds the edge while leaving the source
atom's `updated_at` unchanged at its creation time 3. -/
theorem c6_counterexample :
    ((twoConceptSpace.link_atoms 1 2).1.get_atom 1).map Atom.updated_at =
      some 3 ∧
    (twoConceptSpace.get_atom 1).map Atom.updated_at = some 3 ∧
    ((twoConceptSpace.link_atoms 1 2).1.get_atom 1).map Atom.outgoing =
      some [2] := ⟨rfl, rfl, rfl⟩

/-- C7: reasoning counts.  For every store whose strengths are
non-negative (guaranteed by the `[0,1]` validation), the reasoning
stage reports `beliefs_considered` equal to the number of belief atoms
with strength at least `inference_threshold`, and `goals_considered`
equal to the number of *all* goal atoms found by type, independent of
the active-status filter; in particular with `inference_threshold = 0.8`
and one belief at strength 0.5, `beliefs_considered = 0` and no
implications are created. -/
theorem c7_reasoning_counts :
    (∀ (s : AtomSpace) (pname : String) (th : ℚ) (now : Nat),
      (∀ a ∈ s.atoms, 0 ≤ a.truth_value.strength) →
      (reasoningProcess pname th s now).2.beliefs_considered =
        (s.atoms.filter (fun a =>
          a.type == AtomType.belief &&
            decide (th ≤ a.truth_value.strength))).length ∧
      (reasoningProcess pname th s now).2.goals_considered =
        (s.atoms.filter (fun a => a.type == AtomType.goal)).length) ∧
    (reasoningProcess "reasoning" 0.8 scn7space 1).2.beliefs_considered = 0 ∧
    (reasoningProcess "reasoning" 0.8 scn7space 1).2.inferences = [] ∧
    (reasoningProcess "reasoning" 0.8 scn7space 1).1.find_atoms
      (some .implication) none none = [] := by
  refine ⟨?_, ?_, rfl, rfl⟩
  · intro s pname th now h
    constructor
    · show (s.find_atoms (some .belief) none (some th)).length = _
      unfold AtomSpace.find_atoms
      congr 1
      apply List.filter_congr
      intro a ha
      by_cases e : a.type = AtomType.belief
      · by_cases e2 : th = 0
        · subst e2
          simp [e, h a ha]
        · simp [e, e2]
      · simp [e]
    · show (s.find_atoms (some .goal) none none).length = _
      unfold AtomSpace.find_atoms
      congr 1
      apply List.filter_congr
      intro a _
      show (decide (a.type = AtomType.goal) && true && true) = _
      simp only [Bool.and_true]
      rfl
  · show (scn7space.find_atoms (some .belief) none (some 0.8)).length = 0
    have hbel : scn7space.find_atoms (some AtomType.belief) none (some 0.8) =
        [] := by
      unfold AtomSpace.find_atoms
      rw [show scn7space.atoms = [scn7belief] from rfl, List.filter_cons]
      rw [if_neg (by
        simp only [show scn7belief.truth_value.strength = (0.5 : ℚ) from rfl,
          Bool.and_eq_true, Bool.or_eq_true, decide_eq_true_eq]
        rintro ⟨-, h2 | h2⟩ <;> norm_num at h2)]
      rfl
    rw [hbel]
    rfl

/-- Helper: every atom of the reasoning-threshold scenario store has a
non-negative strength. -/
theorem scn7space_strength_nonneg :
    ∀ a ∈ scn7space.atoms, 0 ≤ a.truth_value.strength := by
  intro a ha
  rw [show scn7space.atoms = [scn7belief] from rfl] at ha
  rw [List.mem_singleton.mp ha,
    show scn7belief.truth_value.strength = (0.5 : ℚ) from rfl]
  norm_num

/-- Witness for `c7_reasoning_counts`: on the scenario store (whose
single belief has non-negative strength) with threshold 0.8, the
reported counts match the filter counts. -/
theorem c7_reasoning_counts_witness :
    (∀ a ∈ scn7space.atoms, 0 ≤ a.truth_value.strength) ∧
    (reasoningProcess "reasoning" 0.8 scn7space 1).2.beliefs_considered =
      (scn7space.atoms.filter (fun a =>
        a.type == AtomType.belief &&
          decide ((0.8 : ℚ) ≤ a.truth_value.strength))).length ∧
    (reasoningProcess "reasoning" 0.8 scn7space 1).2.goals_considered =
      (scn7space.atoms.filter (fun a => a.type == AtomType.goal)).length :=
  ⟨scn7space_strength_nonneg,
   (c7_reasoning_counts.1 scn7space "reasoning" 0.8 1
     scn7space_strength_nonneg).1,
   (c7_reasoning_counts.1 scn7space "reasoning" 0.8 1
     scn7space_strength_nonneg).2⟩

/-- Helper: one step of the best-action scan never decreases the
tracked best score. -/
theorem selectStep_mono (th : ℚ) (g : Atom) (sp : AtomSpace)
    (st : Option Atom × ℚ) (a : Atom) :
    st.2 ≤ (selectStep th g sp st a).2 := by
  unfold selectStep
  by_cases h1 : actionHelpsGoal a g sp = true
  · rw [if_pos h1]
    by_cases h2 : st.2 < calcActionScore a g ∧ th ≤ calcActionScore a g
    · rw [if_pos h2]
      exact le_of_lt h2.1
    · rw [if_neg h2]
  · rw [if_neg h1]

/-- Helper: the best-action scan never decreases the tracked best
score across a whole list. -/
theorem selectFold_mono (th : ℚ) (g : Atom) (sp : AtomSpace)
    (l : List Atom) (st : Option Atom × ℚ) :
    st.2 ≤ (l.foldl (selectStep th g sp) st).2 := by
  induction l generalizing st with
  | nil => exact le_refl _
  | cons x xs ih =>
    rw [List.foldl_cons]
    exact le_trans (selectStep_mono th g sp st x) (ih _)

/-- Helper: every helping action in the scanned list scores at most the
final best score, unless its score is below the threshold. -/
theorem selectFold_bound (th : ℚ) (g : Atom) (sp : AtomSpace)
    (l : List Atom) (st : Option Atom × ℚ) :
    ∀ a ∈ l, actionHelpsGoal a g sp = true →
      calcActionScore a g ≤ (l.foldl (selectStep th g sp) st).2 ∨
      calcActionScore a g < th := by
  induction l generalizing st with
  | nil =>
    intro a ha
    exact absurd ha (List.not_mem_nil a)
  | cons x xs ih =>
    intro a ha hhelp
    rw [List.foldl_cons]
    rcases List.mem_cons.mp ha with rfl | ha2
    · by_cases h2 : st.2 < calcActionScore a g ∧ th ≤ calcActionScore a g
      · left
        have hstep : selectStep th g sp st a = (some a, calcActionScore a g) := by
          unfold selectStep
          rw [if_pos hhelp, if_pos h2]
        rw [hstep]
        exact selectFold_mono th g sp xs _
      · rcases not_and_or.mp h2 with h3 | h3
        · left
          exact le_trans (le_trans (not_lt.mp h3) (selectStep_mono th g sp st a))
            (selectFold_mono th g sp xs _)
        · right
          exact not_le.mp h3
    · exact ih _ a ha2 hhelp

/-- Helper: characterization of a successful best-action scan starting
from an arbitrary state: either the start state is returned untouched,
or the returned action is the first one in the list that attains the
final score — it helps the goal, meets the threshold, its score
strictly exceeds the start score, and every earlier helping action
scores strictly less (so the first-encountered action wins ties). -/
theorem selectFold_some_spec (th : ℚ) (g : Atom) (sp : AtomSpace)
    (l : List Atom) (st : Option Atom × ℚ) (b : Atom) (sc : ℚ)
    (h : l.foldl (selectStep th g sp) st = (some b, sc)) :
    st = (some b, sc) ∨
    (sc = calcActionScore b g ∧ th ≤ sc ∧ actionHelpsGoal b g sp = true ∧
      st.2 < sc ∧ ∃ l1 l2, l = l1 ++ b :: l2 ∧
        ∀ a ∈ l1, actionHelpsGoal a g sp = true → calcActionScore a g < sc) := by
  induction l generalizing st with
  | nil => exact Or.inl h
  | cons x xs ih =>
    rw [List.foldl_cons] at h
    rcases ih _ h with h1 | h1
    · by_cases hh : actionHelpsGoal x g sp = true
      · by_cases h2 : st.2 < calcActionScore x g ∧ th ≤ calcActionScore x g
        · have hstep : selectStep th g sp st x = (some x, calcActionScore x g) := by
            unfold selectStep
            rw [if_pos hh, if_pos h2]
          have h1x := hstep.symm.trans h1
          obtain rfl : x = b := Option.some.inj (congrArg Prod.fst h1x)
          have hsc : calcActionScore x g = sc := congrArg Prod.snd h1x
          right
          refine ⟨hsc.symm, hsc ▸ h2.2, hh, hsc ▸ h2.1, [], xs, rfl, ?_⟩
          intro a ha
          exact absurd ha (List.not_mem_nil a)
        · have hstep : selectStep th g sp st x = st := by
            unfold selectStep
            rw [if_pos hh, if_neg h2]
          rw [hstep] at h1
          exact Or.inl h1
      · have hstep : selectStep th g sp st x = st := by
          unfold selectStep
          rw [if_neg hh]
        rw [hstep] at h1
        exact Or.inl h1
    · right
      obtain ⟨hsc, hth, hhelp, hlt, l1, l2, hsplit, hall⟩ := h1
      refine ⟨hsc, hth, hhelp, lt_of_le_of_lt (selectStep_mono th g sp st x) hlt,
        x :: l1, l2, by rw [hsplit]; exact rfl, ?_⟩
      intro a ha hah
      rcases List.mem_cons.mp ha with rfl | ha2
      · by_cases h2 : st.2 < calcActionScore a g ∧ th ≤ calcActionScore a g
        · have hstep : selectStep th g sp st a = (some a, calcActionScore a g) := by
            unfold selectStep
            rw [if_pos hah, if_pos h2]
          rw [hstep] at hlt
          exact hlt
        · rcases not_and_or.mp h2 with h3 | h3
          · exact lt_of_le_of_lt
              (le_trans (not_lt.mp h3) (selectStep_mono th g sp st a)) hlt
          · exact lt_of_lt_of_le (not_le.mp h3) hth
      · exact hall a ha2 hah

/-- Helper: on a store whose only active goal is `g` and whose action
scan selects nothing for `g`, the action stage selects no actions. -/
theorem actionProcess_single_goal (pname : String) (th : ℚ) (s : AtomSpace)
    (now : Nat) (g : Atom)
    (hg : (s.find_atoms (some .goal) none none).filter isActiveGoal = [g])
    (hsel : selectBest th g s (s.find_atoms (some .action) none none) =
      (none, 0)) :
    (actionProcess pname th s now).2.selected_actions = [] ∧
    (actionProcess pname th s now).2.goals_addressed = 0 := by
  have h : (actionProcess pname th s now).2.selected_actions = [] := by
    simp only [actionProcess, hg, sortByStrengthDesc, insertDesc, List.take,
      List.foldl_cons, List.foldl_nil, hsel]
  constructor
  · exact h
  · show (actionProcess pname th s now).2.selected_actions.length = 0
    rw [h]
    rfl

/-- C8: action selection.  Every action-goal pair is scored as the mean
of the action's strength and the goal's strength; the per-goal scan
replaces the current best only when the candidate's score is strictly
greater than the current best and at least the action threshold, so the
first-encountered action in store iteration order wins ties (every
earlier helping action scores strictly less, every helping action at
most the winner); and with `action_threshold = 0.9`, one active goal at
priority 0.5 and one relevant action at success probability 0.3, the
score 0.4 is below threshold and `selected_actions` is empty. -/
theorem c8_action_selection :
    (∀ a g : Atom, calcActionScore a g =
      (a.truth_value.strength + g.truth_value.strength) / 2) ∧
    (∀ (th : ℚ) (g : Atom) (sp : AtomSpace) (actions : List Atom)
        (b : Atom) (sc : ℚ),
      selectBest th g sp actions = (some b, sc) →
      sc = calcActionScore b g ∧ th ≤ sc ∧ actionHelpsGoal b g sp = true ∧
      (∀ a ∈ actions, actionHelpsGoal a g sp = true →
        calcActionScore a g ≤ sc) ∧
      ∃ l1 l2, actions = l1 ++ b :: l2 ∧
        ∀ a ∈ l1, actionHelpsGoal a g sp = true → calcActionScore a g < sc) ∧
    (actionProcess "action" 0.9 scn8space 1).2.selected_actions = [] ∧
    (actionProcess "action" 0.9 scn8space 1).2.goals_addressed = 0 := by
  have hsel : selectBest 0.9 scn8goal scn8space
      (scn8space.find_atoms (some .action) none none) = (none, 0) := by
    rw [show scn8space.find_atoms (some .action) none none = [scn8action]
      from rfl]
    show selectStep 0.9 scn8goal scn8space (none, 0) scn8action = (none, 0)
    unfold selectStep
    rw [if_pos (show actionHelpsGoal scn8action scn8goal scn8space = true
      by decide)]
    rw [if_neg (by
      rintro ⟨-, h2⟩
      rw [show calcActionScore scn8action scn8goal = ((0.3 : ℚ) + 0.5) / 2
        from rfl] at h2
      norm_num at h2)]
  have hscn := actionProcess_single_goal "action" 0.9 scn8space 1 scn8goal
    rfl hsel
  refine ⟨fun a g => rfl, ?_, hscn.1, hscn.2⟩
  intro th g sp actions b sc h
  have h' : actions.foldl (selectStep th g sp) (none, 0) = (some b, sc) := h
  rcases selectFold_some_spec th g sp actions (none, 0) b sc h' with h1 | h1
  · exact absurd (congrArg Prod.fst h1) (by simp)
  · obtain ⟨hsc, hth, hhelp, -, l1, l2, hsplit, hall⟩ := h1
    refine ⟨hsc, hth, hhelp, ?_, l1, l2, hsplit, hall⟩
    intro a ha hah
    rcases selectFold_bound th g sp actions (none, 0) a ha hah with hb | hb
    · rw [h'] at hb
      exact hb
    · exact le_of_lt (lt_of_lt_of_le hb hth)

/-- Witness for `c8_action_selection`: with the lower threshold 0.3 the
scenario's single action is selected for the goal, and the selection
characterization yields its score, threshold bound and helping
status. -/
theorem c8_action_selection_witness :
    calcActionScore scn8action scn8goal =
      (scn8action.truth_value.strength + scn8goal.truth_value.strength) / 2 ∧
    calcActionScore scn8action scn8goal =
      calcActionScore scn8action scn8goal ∧
    (0.3 : ℚ) ≤ calcActionScore scn8action scn8goal ∧
    actionHelpsGoal scn8action scn8goal scn8space = true := by
  have hsel : selectBest 0.3 scn8goal scn8space [scn8action] =
      (some scn8action, calcActionScore scn8action scn8goal) := by
    show selectStep 0.3 scn8goal scn8space (none, 0) scn8action = _
    unfold selectStep
    rw [if_pos (show actionHelpsGoal scn8action scn8goal scn8space = true
      by decide)]
    rw [if_pos (by
      rw [show calcActionScore scn8action scn8goal = ((0.3 : ℚ) + 0.5) / 2
        from rfl]
      norm_num)]
  have hmain := c8_action_selection.2.1 0.3 scn8goal scn8space [scn8action]
    scn8action (calcActionScore scn8action scn8goal) hsel
  exact ⟨c8_action_selection.1 scn8action scn8goal, hmain.1, hmain.2.1,
    hmain.2.2.1⟩

/-- Helper: every element of a natural-number list is bounded by its
max fold. -/
theorem le_foldr_max (l : List Nat) : ∀ x ∈ l, x ≤ l.foldr max 0 := by
  induction l with
  | nil =>
    intro x hx
    exact absurd hx (List.not_mem_nil x)
  | cons y ys ih =>
    intro x hx
    rcases List.mem_cons.mp hx with rfl | hx2
    · exact le_max_left _ _
    · exact le_trans (ih x hx2) (le_max_right _ _)

/-- Helper: the id of every stored atom, and every entry of its edge
lists, appears in the fold computing the mentioned ids. -/
theorem mem_idsFoldr (l : List Atom) :
    ∀ a ∈ l,
      a.id ∈ l.foldr (fun a acc => a.id :: (a.incoming ++ a.outgoing ++ acc)) [] ∧
      (∀ i ∈ a.incoming,
        i ∈ l.foldr (fun a acc => a.id :: (a.incoming ++ a.outgoing ++ acc)) []) ∧
      (∀ i ∈ a.outgoing,
        i ∈ l.foldr (fun a acc => a.id :: (a.incoming ++ a.outgoing ++ acc)) []) := by
  induction l with
  | nil =>
    intro a ha
    exact absurd ha (List.not_mem_nil a)
  | cons b bs ih =>
    intro a ha
    rw [List.foldr_cons]
    rcases List.mem_cons.mp ha with rfl | ha2
    · refine ⟨List.mem_cons_self _ _, ?_, ?_⟩
      · intro i hi
        exact List.mem_cons_of_mem _
          (List.mem_append.mpr (Or.inl (List.mem_append.mpr (Or.inl hi))))
      · intro i hi
        exact List.mem_cons_of_mem _
          (List.mem_append.mpr (Or.inl (List.mem_append.mpr (Or.inr hi))))
    · obtain ⟨h1, h2, h3⟩ := ih a ha2
      refine ⟨?_, ?_, ?_⟩
      · exact List.mem_cons_of_mem _ (List.mem_append.mpr (Or.inr h1))
      · intro i hi
        exact List.mem_cons_of_mem _ (List.mem_append.mpr (Or.inr (h2 i hi)))
      · intro i hi
        exact List.mem_cons_of_mem _ (List.mem_append.mpr (Or.inr (h3 i hi)))

/-- Helper: the fresh id differs from every stored atom's id, appears
in no stored atom's edge lists, and is not in the caller-supplied
outgoing list — the global-uniqueness property of uuid4 the model
relies on. -/
theorem freshId_fresh (s : AtomSpace) (out : List Nat) :
    (∀ a ∈ s.atoms, a.id ≠ s.freshId out ∧ s.freshId out ∉ a.incoming ∧
      s.freshId out ∉ a.outgoing) ∧ s.freshId out ∉ out := by
  have hgt : ∀ x ∈ s.mentionedIds ++ out, x < s.freshId out :=
    fun x hx => Nat.lt_succ_of_le (le_foldr_max _ x hx)
  constructor
  · intro a ha
    obtain ⟨h1, h2, h3⟩ := mem_idsFoldr s.atoms a ha
    refine ⟨?_, ?_, ?_⟩
    · intro e
      exact absurd (hgt a.id (List.mem_append.mpr (Or.inl h1)))
        (by rw [e]; exact lt_irrefl _)
    · intro hin
      exact absurd (hgt _ (List.mem_append.mpr (Or.inl (h2 _ hin))))
        (lt_irrefl _)
    · intro hin
      exact absurd (hgt _ (List.mem_append.mpr (Or.inl (h3 _ hin))))
        (lt_irrefl _)
  · intro hin
    exact absurd (hgt _ (List.mem_append.mpr (Or.inr hin))) (lt_irrefl _)

/-- Helper: edge symmetry transfers along any correspondence that
preserves ids and both edge lists. -/
theorem edgeSym_of_proj (s1 s2 : AtomSpace)
    (hmem : ∀ a2 ∈ s2.atoms, ∃ a1 ∈ s1.atoms,
      a2.id = a1.id ∧ a2.incoming = a1.incoming ∧ a2.outgoing = a1.outgoing)
    (h : EdgeSym s1) : EdgeSym s2 := by
  intro a2 ha2 b2 hb2
  obtain ⟨a1, ha1, hai, _, haout⟩ := hmem a2 ha2
  obtain ⟨b1, hb1, hbi, hbin, _⟩ := hmem b2 hb2
  rw [hai, hbi, haout, hbin]
  exact h a1 ha1 b1 hb1

/-- Helper: what `linkEdit` does to each atom's id and edge lists. -/
theorem linkEdit_proj (src tgt : Nat) (a : Atom) :
    (linkEdit src tgt a).id = a.id ∧
    (linkEdit src tgt a).outgoing =
      a.outgoing ++ (if a.id = src then [tgt] else []) ∧
    (linkEdit src tgt a).incoming =
      a.incoming ++ (if a.id = tgt then [src] else []) := by
  simp only [linkEdit, addOutgoing, addIncoming]
  by_cases e1 : (a.id == src) = true
  · rw [if_pos e1]
    by_cases e2 : (a.id == tgt) = true
    · rw [if_pos (show ((({ a with outgoing := a.outgoing ++ [tgt] } : Atom).id == tgt) = true) from e2)]
      rw [if_pos (beq_iff_eq.mp e1), if_pos (beq_iff_eq.mp e2)]
      exact ⟨rfl, rfl, rfl⟩
    · rw [if_neg (show ¬((({ a with outgoing := a.outgoing ++ [tgt] } : Atom).id == tgt) = true) from e2)]
      rw [if_pos (beq_iff_eq.mp e1),
        if_neg (fun h2 => e2 (beq_iff_eq.mpr h2))]
      exact ⟨rfl, rfl, (List.append_nil _).symm⟩
  · rw [if_neg e1]
    by_cases e2 : (a.id == tgt) = true
    · rw [if_pos e2, if_neg (fun h2 => e1 (beq_iff_eq.mpr h2)),
        if_pos (beq_iff_eq.mp e2)]
      exact ⟨rfl, (List.append_nil _).symm, rfl⟩
    · rw [if_neg e2, if_neg (fun h2 => e1 (beq_iff_eq.mpr h2)),
        if_neg (fun h2 => e2 (beq_iff_eq.mpr h2))]
      exact ⟨rfl, (List.append_nil _).symm, (List.append_nil _).symm⟩

/-- Helper: the outcome of `link_atoms` — either the store is returned
unchanged (absent endpoint or edge already present), or both endpoints
exist, the edge is new, and every atom is rewritten by `linkEdit`. -/
theorem link_atoms_result (s : AtomSpace) (src tgt : Nat) :
    (s.link_atoms src tgt).1 = s ∨
    (∃ sa tb, s.get_atom src = some sa ∧ s.get_atom tgt = some tb ∧
      tgt ∉ sa.outgoing ∧
      (s.link_atoms src tgt).1 =
        AtomSpace.mk (s.atoms.map (linkEdit src tgt)) s.name) := by
  unfold AtomSpace.link_atoms
  cases hs : s.get_atom src with
  | none => exact Or.inl rfl
  | some sa =>
    cases ht : s.get_atom tgt with
    | none => exact Or.inl rfl
    | some tb =>
      by_cases hmem : tgt ∈ sa.outgoing
      · left
        show (if tgt ∈ sa.outgoing then (s, true)
          else ((s.setAtom src (addOutgoing tgt)).setAtom tgt (addIncoming src), true)).1 = s
        rw [if_pos hmem]
      · right
        refine ⟨sa, tb, rfl, rfl, hmem, ?_⟩
        show (if tgt ∈ sa.outgoing then (s, true)
          else ((s.setAtom src (addOutgoing tgt)).setAtom tgt (addIncoming src), true)).1 = _
        rw [if_neg hmem]
        show (s.setAtom src (addOutgoing tgt)).setAtom tgt (addIncoming src) = _
        unfold AtomSpace.setAtom
        rw [AtomSpace.mk.injEq]
        refine ⟨?_, rfl⟩
        show (s.atoms.map _).map _ = _
        rw [List.map_map]
        apply List.map_congr_left
        intro a _
        rfl

/-- Helper: lookup in a store whose atoms were rewritten by `linkEdit`
finds the rewritten atom. -/
theorem get_atom_map_linkEdit (s : AtomSpace) (src tgt i : Nat) :
    (AtomSpace.mk (s.atoms.map (linkEdit src tgt)) s.name).get_atom i =
      (s.get_atom i).map (linkEdit src tgt) := by
  unfold AtomSpace.get_atom
  show (s.atoms.map _).find? _ = _
  rw [List.find?_map]
  have hcomp : ((fun a : Atom => a.id == i) ∘ linkEdit src tgt) =
      (fun a : Atom => a.id == i) := by
    funext a
    show ((linkEdit src tgt a).id == i) = (a.id == i)
    rw [(linkEdit_proj src tgt a).1]
  rw [hcomp]

/-- Helper: linking the same pair twice is the same as linking it once
(the second call sees the edge already present and mutates nothing). -/
theorem link_atoms_idem (s : AtomSpace) (src tgt : Nat) :
    ((s.link_atoms src tgt).1.link_atoms src tgt).1 = (s.link_atoms src tgt).1 := by
  rcases link_atoms_result s src tgt with h | ⟨sa, tb, hs, ht, hmem, h⟩
  · rw [h]
    exact h
  · rw [h]
    have hs2 : (AtomSpace.mk (s.atoms.map (linkEdit src tgt)) s.name).get_atom src =
        some (linkEdit src tgt sa) := by
      rw [get_atom_map_linkEdit, hs]
      rfl
    have ht2 : (AtomSpace.mk (s.atoms.map (linkEdit src tgt)) s.name).get_atom tgt =
        some (linkEdit src tgt tb) := by
      rw [get_atom_map_linkEdit, ht]
      rfl
    have hsa_id : (sa.id == src) = true := by
      have h0 := List.find?_some
        (show s.atoms.find? (fun a => a.id == src) = some sa from hs)
      exact h0
    have hguard : tgt ∈ (linkEdit src tgt sa).outgoing := by
      rw [(linkEdit_proj src tgt sa).2.1, if_pos (beq_iff_eq.mp hsa_id)]
      exact List.mem_append.mpr (Or.inr (List.mem_singleton.mpr rfl))
    unfold AtomSpace.link_atoms
    rw [hs2, ht2]
    show (if tgt ∈ (linkEdit src tgt sa).outgoing
      then (AtomSpace.mk (s.atoms.map (linkEdit src tgt)) s.name, true)
      else (((AtomSpace.mk (s.atoms.map (linkEdit src tgt)) s.name).setAtom src (addOutgoing tgt)).setAtom tgt (addIncoming src), true)).1 =
      AtomSpace.mk (s.atoms.map (linkEdit src tgt)) s.name
    rw [if_pos hguard]

/-- Helper: `link_atoms` preserves edge symmetry. -/
theorem edgeSym_link (s : AtomSpace) (h : EdgeSym s) (src tgt : Nat) :
    EdgeSym (s.link_atoms src tgt).1 := by
  rcases link_atoms_result s src tgt with heq | ⟨sa, tb, hs, ht, hmem, heq⟩
  · rw [heq]
    exact h
  · rw [heq]
    intro a2 ha2 b2 hb2
    obtain ⟨a1, ha1, rfl⟩ := List.mem_map.mp ha2
    obtain ⟨b1, hb1, rfl⟩ := List.mem_map.mp hb2
    obtain ⟨hia, hoa, -⟩ := linkEdit_proj src tgt a1
    obtain ⟨hib, -, hinb⟩ := linkEdit_proj src tgt b1
    rw [hia, hib, hoa, hinb, List.mem_append, List.mem_append]
    have hbase := h a1 ha1 b1 hb1
    by_cases e1 : a1.id = src
    · by_cases e2 : b1.id = tgt
      · simp [e1, e2]
      · simp [e1, e2, hbase]
    · by_cases e2 : b1.id = tgt
      · simp [e1, e2]
        rw [← e2]
        exact hbase
      · simp [e1, e2, hbase]

/-- Helper: `add_atom` preserves edge symmetry, both on the dedup path
(only a truth value and timestamp change) and on the creation path
(the fresh atom's edges are registered symmetrically, relying on the
freshness of the new id). -/
theorem edgeSym_add_atom (s : AtomSpace) (h : EdgeSym s) (t : AtomType)
    (n : String) (tv : Option TruthValue) (o : Option (List Nat))
    (m : Option Meta) (now : Nat) :
    EdgeSym (s.add_atom t n tv o m now).1 := by
  cases hf : s.atoms.find? (fun a => a.type == t && a.name == n) with
  | some existing =>
    have hex : existing ∈ s.atoms := List.mem_of_find?_eq_some hf
    cases tv with
    | none =>
      have heq : (s.add_atom t n none o m now).1 = s := by
        unfold AtomSpace.add_atom
        rw [hf]
      rw [heq]
      exact h
    | some tvv =>
      have heq : (s.add_atom t n (some tvv) o m now).1 =
          s.setAtom existing.id
            (fun _ => existing.update_truth_value tvv.strength tvv.confidence now) := by
        unfold AtomSpace.add_atom
        rw [hf]
      rw [heq]
      apply edgeSym_of_proj s _ ?_ h
      intro a2 ha2
      unfold AtomSpace.setAtom at ha2
      obtain ⟨a1, ha1, rfl⟩ := List.mem_map.mp ha2
      by_cases e : (a1.id == existing.id) = true
      · rw [if_pos e]
        obtain ⟨p1, -, -, p4, p5, -, -⟩ :=
          update_truth_value_proj existing tvv.strength tvv.confidence now
        exact ⟨existing, hex, p1, p4, p5⟩
      · rw [if_neg e]
        exact ⟨a1, ha1, rfl, rfl, rfl⟩
  | none =>
    have hA_id : (s.newAtom t n tv o m now).id = s.freshId (o.getD []) := rfl
    have hfr := (freshId_fresh s (o.getD [])).1
    have hfa := (freshId_fresh s (o.getD [])).2
    rw [add_atom_create s t n tv o m now hf]
    intro a2 ha2 b2 hb2
    obtain ⟨a1, ha1, rfl⟩ := List.mem_map.mp ha2
    obtain ⟨b1, hb1, rfl⟩ := List.mem_map.mp hb2
    rcases List.mem_append.mp ha1 with ha1 | ha1 <;>
      rcases List.mem_append.mp hb1 with hb1 | hb1
    · show b1.id ∈ a1.outgoing ↔ a1.id ∈ b1.incoming ++
        List.replicate ((o.getD []).count b1.id) (s.newAtom t n tv o m now).id
      rw [List.mem_append]
      have hbase := h a1 ha1 b1 hb1
      have hne : ¬(a1.id = (s.newAtom t n tv o m now).id) := by
        rw [hA_id]
        exact (hfr a1 ha1).1
      simp [hbase, List.mem_replicate, hne]
    · obtain rfl : b1 = s.newAtom t n tv o m now := List.mem_singleton.mp hb1
      show (s.newAtom t n tv o m now).id ∈ a1.outgoing ↔
        a1.id ∈ ([] : List Nat) ++
          List.replicate ((o.getD []).count (s.newAtom t n tv o m now).id)
            (s.newAtom t n tv o m now).id
      constructor
      · intro hcontra
        exact absurd hcontra (by rw [hA_id]; exact (hfr a1 ha1).2.2)
      · intro hcontra
        rw [List.nil_append, List.mem_replicate] at hcontra
        exact absurd hcontra.2 (by rw [hA_id]; exact (hfr a1 ha1).1)
    · obtain rfl : a1 = s.newAtom t n tv o m now := List.mem_singleton.mp ha1
      show b1.id ∈ (o.getD []) ↔ (s.newAtom t n tv o m now).id ∈
        b1.incoming ++ List.replicate ((o.getD []).count b1.id)
          (s.newAtom t n tv o m now).id
      rw [List.mem_append, List.mem_replicate]
      constructor
      · intro hmem2
        exact Or.inr ⟨Nat.pos_iff_ne_zero.mp (List.count_pos_iff.mpr hmem2), rfl⟩
      · rintro (hin | ⟨hk, -⟩)
        · exact absurd hin (by rw [hA_id]; exact (hfr b1 hb1).2.1)
        · exact List.count_pos_iff.mp (Nat.pos_of_ne_zero hk)
    · obtain rfl : a1 = s.newAtom t n tv o m now := List.mem_singleton.mp ha1
      obtain rfl : b1 = s.newAtom t n tv o m now := List.mem_singleton.mp hb1
      show (s.newAtom t n tv o m now).id ∈ (o.getD []) ↔
        (s.newAtom t n tv o m now).id ∈ ([] : List Nat) ++
          List.replicate ((o.getD []).count (s.newAtom t n tv o m now).id)
            (s.newAtom t n tv o m now).id
      constructor
      · intro hx
        exact absurd hx (by rw [hA_id]; exact hfa)
      · intro hx
        rw [List.nil_append, List.mem_replicate] at hx
        exact absurd (List.count_pos_iff.mp (Nat.pos_of_ne_zero hx.1))
          (by rw [hA_id]; exact hfa)

/-- Helper: linking a pair twice creates no duplicate edge entries —
starting from a symmetric store whose endpoint atoms hold at most one
copy of the edge, both endpoint atoms still hold at most one copy. -/
theorem link_atoms_counts (s : AtomSpace) (h : EdgeSym s) (src tgt : Nat)
    (sa tb : Atom) (hs : s.get_atom src = some sa)
    (ht : s.get_atom tgt = some tb) (hca : sa.outgoing.count tgt ≤ 1)
    (hcb : tb.incoming.count src ≤ 1) :
    ∀ a2 b2,
      (((s.link_atoms src tgt).1.link_atoms src tgt).1.get_atom src = some a2) →
      (((s.link_atoms src tgt).1.link_atoms src tgt).1.get_atom tgt = some b2) →
      a2.outgoing.count tgt ≤ 1 ∧ b2.incoming.count src ≤ 1 := by
  intro a2 b2 ha2 hb2
  rw [link_atoms_idem s src tgt] at ha2 hb2
  rcases link_atoms_result s src tgt with heq | ⟨sa', tb', hs', ht', hmem, heq⟩
  · rw [heq, hs] at ha2
    rw [heq, ht] at hb2
    obtain rfl := Option.some.inj ha2
    obtain rfl := Option.some.inj hb2
    exact ⟨hca, hcb⟩
  · rw [heq, get_atom_map_linkEdit, hs'] at ha2
    rw [heq, get_atom_map_linkEdit, ht'] at hb2
    obtain rfl := Option.some.inj ha2
    obtain rfl := Option.some.inj hb2
    have hsa_id : (sa'.id == src) = true := by
      have h0 := List.find?_some
        (show s.atoms.find? (fun a => a.id == src) = some sa' from hs')
      exact h0
    have htb_id : (tb'.id == tgt) = true := by
      have h0 := List.find?_some
        (show s.atoms.find? (fun a => a.id == tgt) = some tb' from ht')
      exact h0
    constructor
    · rw [(linkEdit_proj src tgt sa').2.1, if_pos (beq_iff_eq.mp hsa_id),
        List.count_append, List.count_eq_zero.mpr hmem]
      simp
    · rw [(linkEdit_proj src tgt tb').2.2, if_pos (beq_iff_eq.mp htb_id),
        List.count_append]
      have hnot : src ∉ tb'.incoming := by
        intro hin
        have hiff := h sa' (List.mem_of_find?_eq_some hs') tb'
          (List.mem_of_find?_eq_some ht')
        rw [beq_iff_eq.mp htb_id, beq_iff_eq.mp hsa_id] at hiff
        exact hmem (hiff.mpr hin)
      rw [List.count_eq_zero.mpr hnot]
      simp

/-- C2: edge symmetry.  For every store satisfying the invariant, every
mutating operation preserves it — `add_atom` (including creation with a
pre-populated outgoing list) and `link_atoms`; moreover calling
`link_atoms` twice with the same pair is the same as calling it once
(so the second call produces no mutation at all), and the two endpoint
atoms hold at most one copy of the edge afterwards (no duplicate
entries in `A.outgoing` or `B.incoming`). -/
theorem c2_edge_symmetry (s : AtomSpace) (h : EdgeSym s) :
    (∀ (t : AtomType) (n : String) (tv : Option TruthValue)
        (o : Option (List Nat)) (m : Option Meta) (now : Nat),
      EdgeSym (s.add_atom t n tv o m now).1) ∧
    (∀ src tgt : Nat, EdgeSym (s.link_atoms src tgt).1) ∧
    (∀ src tgt : Nat,
      ((s.link_atoms src tgt).1.link_atoms src tgt).1 =
        (s.link_atoms src tgt).1) ∧
    (∀ (src tgt : Nat) (sa tb : Atom), s.get_atom src = some sa →
      s.get_atom tgt = some tb → sa.outgoing.count tgt ≤ 1 →
      tb.incoming.count src ≤ 1 →
      ∀ a2 b2,
        (((s.link_atoms src tgt).1.link_atoms src tgt).1.get_atom src = some a2) →
        (((s.link_atoms src tgt).1.link_atoms src tgt).1.get_atom tgt = some b2) →
        a2.outgoing.count tgt ≤ 1 ∧ b2.incoming.count src ≤ 1) :=
  ⟨fun t n tv o m now => edgeSym_add_atom s h t n tv o m now,
   fun src tgt => edgeSym_link s h src tgt,
   fun src tgt => link_atoms_idem s src tgt,
   fun src tgt sa tb hs ht hca hcb =>
     link_atoms_counts s h src tgt sa tb hs ht hca hcb⟩

/-- Witness for `c2_edge_symmetry`: the two-concept store is symmetric;
linking 1 → 2 keeps it symmetric, a second identical link is a no-op,
and the linked endpoints hold at most one copy of the edge. -/
theorem c2_edge_symmetry_witness :
    EdgeSym twoConceptSpace ∧
    EdgeSym (twoConceptSpace.link_atoms 1 2).1 ∧
    ((twoConceptSpace.link_atoms 1 2).1.link_atoms 1 2).1 =
      (twoConceptSpace.link_atoms 1 2).1 ∧
    linkedSource.outgoing.count 2 ≤ 1 ∧ linkedTarget.incoming.count 1 ≤ 1 :=
  ⟨by unfold EdgeSym; decide,
   (c2_edge_symmetry twoConceptSpace (by unfold EdgeSym; decide)).2.1 1 2,
   (c2_edge_symmetry twoConceptSpace (by unfold EdgeSym; decide)).2.2.1 1 2,
   (c2_edge_symmetry twoConceptSpace (by unfold EdgeSym; decide)).2.2.2 1 2
     conceptA conceptB rfl rfl (by decide) (by decide)
     linkedSource linkedTarget rfl rfl⟩

/-- Helper: `linkEdit` changes only the `outgoing` and `incoming` edge
lists; metadata and the `updated_at` timestamp are untouched. -/
theorem linkEdit_keeps (src tgt : Nat) (a : Atom) :
    (linkEdit src tgt a).metadata = a.metadata ∧
    (linkEdit src tgt a).updated_at = a.updated_at := by
  simp only [linkEdit, addOutgoing, addIncoming]
  by_cases e1 : (a.id == src) = true
  · rw [if_pos e1]
    by_cases e2 : (a.id == tgt) = true
    · rw [if_pos (show ((({ a with outgoing := a.outgoing ++ [tgt] } : Atom).id == tgt) = true) from e2)]
      exact ⟨rfl, rfl⟩
    · rw [if_neg (show ¬((({ a with outgoing := a.outgoing ++ [tgt] } : Atom).id == tgt) = true) from e2)]
      exact ⟨rfl, rfl⟩
  · rw [if_neg e1]
    by_cases e2 : (a.id == tgt) = true
    · rw [if_pos e2]
      exact ⟨rfl, rfl⟩
    · rw [if_neg e2]
      exact ⟨rfl, rfl⟩

/-- C6 (amended): `updated_at` advances only when a truth value is
stamped, and no store operation edits metadata after creation.
Formally, projecting every stored atom to its
`(id, metadata, updated_at)` triple: (1) `update_truth_value` sets
`updated_at` to the current time and leaves metadata unchanged;
(2) `link_atoms` preserves the projected list exactly — edge addition
advances no timestamp and edits no metadata; (3) the creation path of
`add_atom` maps the projected list to the original one followed by the
new atom's `(fresh id, supplied metadata, now)` — in particular the
targets of a pre-populated `outgoing` list, whose `incoming` lists it
appends to, keep their `updated_at` and metadata exactly; (4) the dedup
path without a truth value returns the store unchanged; (5) the dedup
path with a truth value preserves every atom's triple except on the
matched id, where the atom keeps the matched atom's metadata and gets
`updated_at = now`. -/
theorem c6_timestamps :
    (∀ (a : Atom) (ns nc : ℚ) (now : Nat),
      (a.update_truth_value ns nc now).updated_at = now ∧
      (a.update_truth_value ns nc now).metadata = a.metadata) ∧
    (∀ (s : AtomSpace) (src tgt : Nat),
      (s.link_atoms src tgt).1.atoms.map
          (fun a => (a.id, a.metadata, a.updated_at)) =
        s.atoms.map (fun a => (a.id, a.metadata, a.updated_at))) ∧
    (∀ (s : AtomSpace) (t : AtomType) (n : String) (tv : Option TruthValue)
        (o : Option (List Nat)) (m : Option Meta) (now : Nat),
      s.atoms.find? (fun a => a.type == t && a.name == n) = none →
      (s.add_atom t n tv o m now).1.atoms.map
          (fun a => (a.id, a.metadata, a.updated_at)) =
        s.atoms.map (fun a => (a.id, a.metadata, a.updated_at)) ++
          [((s.newAtom t n tv o m now).id, m.getD [], now)]) ∧
    (∀ (s : AtomSpace) (t : AtomType) (n : String) (o : Option (List Nat))
        (m : Option Meta) (now : Nat) (existing : Atom),
      s.atoms.find? (fun a => a.type == t && a.name == n) = some existing →
      (s.add_atom t n none o m now).1 = s) ∧
    (∀ (s : AtomSpace) (t : AtomType) (n : String) (tvv : TruthValue)
        (o : Option (List Nat)) (m : Option Meta) (now : Nat)
        (existing : Atom),
      s.atoms.find? (fun a => a.type == t && a.name == n) = some existing →
      (s.add_atom t n (some tvv) o m now).1.atoms.map
          (fun a => (a.id, a.metadata, a.updated_at)) =
        s.atoms.map (fun a => if a.id == existing.id
          then (existing.id, existing.metadata, now)
          else (a.id, a.metadata, a.updated_at))) := by
  refine ⟨?_, ?_, ?_, ?_, ?_⟩
  · intro a ns nc now
    exact ⟨(update_truth_value_proj a ns nc now).2.2.2.2.2.2,
      (update_truth_value_proj a ns nc now).2.2.2.2.2.1⟩
  · intro s src tgt
    rcases link_atoms_result s src tgt with heq | ⟨sa, tb, hs, ht, hmem, heq⟩
    · rw [heq]
    · rw [heq]
      show (s.atoms.map (linkEdit src tgt)).map
          (fun a => (a.id, a.metadata, a.updated_at)) =
        s.atoms.map (fun a => (a.id, a.metadata, a.updated_at))
      rw [List.map_map]
      apply List.map_congr_left
      intro a _
      show ((linkEdit src tgt a).id, (linkEdit src tgt a).metadata,
          (linkEdit src tgt a).updated_at) = (a.id, a.metadata, a.updated_at)
      rw [(linkEdit_proj src tgt a).1, (linkEdit_keeps src tgt a).1,
        (linkEdit_keeps src tgt a).2]
  · intro s t n tv o m now hf
    rw [add_atom_create s t n tv o m now hf]
    show ((s.atoms ++ [s.newAtom t n tv o m now]).map
        (incomingAppend (o.getD []) (s.newAtom t n tv o m now).id)).map
        (fun a => (a.id, a.metadata, a.updated_at)) = _
    rw [List.map_map, List.map_append]
    have h1 : s.atoms.map ((fun a => (a.id, a.metadata, a.updated_at)) ∘
        incomingAppend (o.getD []) (s.newAtom t n tv o m now).id) =
        s.atoms.map (fun a => (a.id, a.metadata, a.updated_at)) :=
      List.map_congr_left (fun a _ => rfl)
    rw [h1]
    exact rfl
  · intro s t n o m now existing hf
    unfold AtomSpace.add_atom
    rw [hf]
  · intro s t n tvv o m now existing hf
    have heq : (s.add_atom t n (some tvv) o m now).1 =
        s.setAtom existing.id
          (fun _ => existing.update_truth_value tvv.strength
            tvv.confidence now) := by
      unfold AtomSpace.add_atom
      rw [hf]
    rw [heq]
    unfold AtomSpace.setAtom
    show (s.atoms.map (fun a => if a.id == existing.id
        then existing.update_truth_value tvv.strength tvv.confidence now
        else a)).map (fun a => (a.id, a.metadata, a.updated_at)) = _
    rw [List.map_map]
    apply List.map_congr_left
    intro a _
    show ((if a.id == existing.id
        then existing.update_truth_value tvv.strength tvv.confidence now
        else a).id,
      (if a.id == existing.id
        then existing.update_truth_value tvv.strength tvv.confidence now
        else a).metadata,
      (if a.id == existing.id
        then existing.update_truth_value tvv.strength tvv.confidence now
        else a).updated_at) =
      (if a.id == existing.id then (existing.id, existing.metadata, now)
        else (a.id, a.metadata, a.updated_at))
    by_cases e : (a.id == existing.id) = true
    · rw [if_pos e, if_pos e]
      obtain ⟨p1, -, -, -, -, p6, p7⟩ :=
        update_truth_value_proj existing tvv.strength tvv.confidence now
      rw [p1, p6, p7]
    · rw [if_neg e, if_neg e]

/-- Witness for `c6_timestamps` at concrete inputs: a merge at time 7
stamps 7 and keeps metadata; linking the two-concept store preserves
every `(id, metadata, updated_at)` triple; adding a third atom at time
9 with the PRE-POPULATED outgoing list `[1, 2]` keeps the triples of
atoms 1 and 2 and appends the new atom's triple — concretely, atoms 1
and 2 each gain incoming id 3 while their `updated_at` stays at 3
and 4; a dedup call without a truth value leaves the sample store
unchanged; a dedup call with one rewrites only the matched belief's
triple, stamping time 5. -/
theorem c6_timestamps_witness :
    (((sampleAtom ⟨0.5, 0.5⟩).update_truth_value 0.9 0.8 7).updated_at = 7 ∧
      ((sampleAtom ⟨0.5, 0.5⟩).update_truth_value 0.9 0.8 7).metadata =
        (sampleAtom ⟨0.5, 0.5⟩).metadata) ∧
    ((twoConceptSpace.link_atoms 1 2).1.atoms.map
        (fun a => (a.id, a.metadata, a.updated_at)) =
      twoConceptSpace.atoms.map (fun a => (a.id, a.metadata, a.updated_at))) ∧
    ((twoConceptSpace.add_atom .concept "c" none (some [1, 2]) none 9).1.atoms.map
        (fun a => (a.id, a.metadata, a.updated_at)) =
      twoConceptSpace.atoms.map (fun a => (a.id, a.metadata, a.updated_at)) ++
        [((twoConceptSpace.newAtom .concept "c" none (some [1, 2]) none 9).id,
          (none : Option Meta).getD [], 9)]) ∧
    (((twoConceptSpace.add_atom .concept "c" none (some [1, 2]) none
        9).1.get_atom 1).map (fun a => (a.incoming, a.updated_at)) =
      some ([3], 3)) ∧
    (((twoConceptSpace.add_atom .concept "c" none (some [1, 2]) none
        9).1.get_atom 2).map (fun a => (a.incoming, a.updated_at)) =
      some ([3], 4)) ∧
    ((sampleStore.add_atom .belief "x" none none none 5).1 = sampleStore) ∧
    ((sampleStore.add_atom .belief "x" (some ⟨0.9, 0.8⟩) none none
        5).1.atoms.map (fun a => (a.id, a.metadata, a.updated_at)) =
      sampleStore.atoms.map (fun a => if a.id == sampleBelief.id
        then (sampleBelief.id, sampleBelief.metadata, 5)
        else (a.id, a.metadata, a.updated_at))) :=
  ⟨c6_timestamps.1 (sampleAtom ⟨0.5, 0.5⟩) 0.9 0.8 7,
   c6_timestamps.2.1 twoConceptSpace 1 2,
   c6_timestamps.2.2.1 twoConceptSpace .concept "c" none (some [1, 2])
     none 9 rfl,
   rfl,
   rfl,
   c6_timestamps.2.2.2.1 sampleStore .belief "x" none none 5
     sampleBelief rfl,
   c6_timestamps.2.2.2.2 sampleStore .belief "x" ⟨0.9, 0.8⟩ none none 5
     sampleBelief rfl⟩

end CogLlama
